import Mathlib

/-!
Shallow embedding of the SGI geometric core: `sgi/model.py`,
`sgi/controller.py` and `sgi/obj.py`.

Conventions of the embedding:
* Python floats are modelled as exact rationals (`ℚ`); every arithmetic
  identity proved here is the exact-arithmetic content of the code.
* Python `int(...)` applied to a float truncates toward zero; it is
  modelled by `pyInt`.
* Operations that can raise (`ZeroDivisionError`, a failed `assert`,
  `KeyError` on dict lookup, `IndexError` on list indexing) are modelled
  with `Option` / an explicit error result; in every such spot the raise
  happens before the first mutation of the state that the model returns.
-/

namespace SGI

/-- `Vec2` from model.py: an immutable pair of numbers. -/
structure Vec2 where
  x : ℚ
  y : ℚ
deriving DecidableEq

/-- `Vec2.__add__`: component-wise addition. -/
def Vec2.add (a b : Vec2) : Vec2 := ⟨a.x + b.x, a.y + b.y⟩

/-- `Vec2.__sub__`: component-wise subtraction. -/
def Vec2.sub (a b : Vec2) : Vec2 := ⟨a.x - b.x, a.y - b.y⟩

/-- `Vec2.__mul__`: multiplication by a scalar. -/
def Vec2.mul (a : Vec2) (s : ℚ) : Vec2 := ⟨a.x * s, a.y * s⟩

/-- `Vec2.__truediv__`: division by a scalar (callers guard `s ≠ 0`). -/
def Vec2.div (a : Vec2) (s : ℚ) : Vec2 := ⟨a.x / s, a.y / s⟩

/-- `Vec2.__neg__`: component-wise negation. -/
def Vec2.neg (a : Vec2) : Vec2 := ⟨-a.x, -a.y⟩

/-- Python `int()` on a real value: truncation toward zero
(`⌊q⌋` for nonnegative `q`, `⌈q⌉` for negative `q`). -/
def pyInt (q : ℚ) : ℤ := if 0 ≤ q then ⌊q⌋ else ⌈q⌉

/-- `TransformMatrix` from model.py: a 3×3 matrix written row-wise as
`((a b c) (d e f) (g h i))`. -/
structure Mat3 where
  a : ℚ
  b : ℚ
  c : ℚ
  d : ℚ
  e : ℚ
  f : ℚ
  g : ℚ
  h : ℚ
  i : ℚ
deriving DecidableEq

/-- `_multiply` on two matrices: the standard 3×3 matrix product
(row of `lhs` dotted with column of `rhs`). -/
def matMul (l r : Mat3) : Mat3 :=
  ⟨l.a * r.a + l.b * r.d + l.c * r.g,
   l.a * r.b + l.b * r.e + l.c * r.h,
   l.a * r.c + l.b * r.f + l.c * r.i,
   l.d * r.a + l.e * r.d + l.f * r.g,
   l.d * r.b + l.e * r.e + l.f * r.h,
   l.d * r.c + l.e * r.f + l.f * r.i,
   l.g * r.a + l.h * r.d + l.i * r.g,
   l.g * r.b + l.h * r.e + l.i * r.h,
   l.g * r.c + l.h * r.f + l.i * r.i⟩

/-- `apply_transform` / `_multiply(matrix, Vec2)`: multiplies the matrix by
the homogeneous column `(x, y, 1)` and asserts that the resulting third
coordinate is `1` (`none` models the failed assertion). -/
def apply_transform (point : Vec2) (m : Mat3) : Option Vec2 :=
  if m.g * point.x + m.h * point.y + m.i = 1 then
    some ⟨m.a * point.x + m.b * point.y + m.c,
          m.d * point.x + m.e * point.y + m.f⟩
  else none

/-- `compose_transforms`: `reduce(_multiply, reversed(matrices))` — a left
fold of the matrix product over the reversed list; `none` models the
`TypeError` that `reduce` raises on an empty sequence. -/
def compose_transforms (ms : List Mat3) : Option Mat3 :=
  match ms.reverse with
  | [] => none
  | m :: rest => some (rest.foldl matMul m)

/-- `make_scale_matrix(factors)` from controller.py. -/
def make_scale_matrix (factors : Vec2) : Mat3 :=
  ⟨factors.x, 0, 0,
   0, factors.y, 0,
   0, 0, 1⟩

/-- `make_translate_matrix(delta)` from controller.py. -/
def make_translate_matrix (delta : Vec2) : Mat3 :=
  ⟨1, 0, delta.x,
   0, 1, delta.y,
   0, 0, 1⟩

/-- `make_rotation_matrix(degrees)` from controller.py, parametrised by the
exact values `c = cos(radians degrees)` and `s = sin(radians degrees)` (the
transcendental evaluation is kept abstract; the matrix shape is the code's). -/
def make_rotation_matrix (c s : ℚ) : Mat3 :=
  ⟨c, -s, 0,
   s, c, 0,
   0, 0, 1⟩

/-- `Drawable`: the closed variant over Point, Line and Polygon from
model.py, each carrying its display name and color. -/
inductive Drawable where
  | point (name color : String) (position : Vec2)
  | line (name color : String) (start stop : Vec2)
  | polygon (name color : String) (points : List Vec2)
deriving DecidableEq

/-- Python `sum(points, start=Vec2(0.0, 0.0))`: left fold of addition. -/
def vecSum (ps : List Vec2) : Vec2 := ps.foldl Vec2.add ⟨0, 0⟩

/-- `get_center`: a Point is its own center, a Line yields the midpoint of
its endpoints, a Polygon the arithmetic mean of its vertices
(`sum(points) / len(points)`; the code assumes a non-empty list). -/
def Drawable.get_center : Drawable → Vec2
  | .point _ _ p => p
  | .line _ _ s e => (s.add e).div 2
  | .polygon _ _ pts => (vecSum pts).div (pts.length : ℚ)

/-- `apply_transform` on an entity: rewrites every owned coordinate through
`apply_transform`; `none` models a homogeneous-coordinate assertion failing
anywhere inside (which cannot happen for the affine matrices the controller
builds — see `apply_transform_affine`). -/
def Drawable.apply_transform (d : Drawable) (m : Mat3) : Option Drawable :=
  match d with
  | .point n c p => (SGI.apply_transform p m).map (Drawable.point n c)
  | .line n c s e => do
      let s2 ← SGI.apply_transform s m
      let e2 ← SGI.apply_transform e m
      pure (Drawable.line n c s2 e2)
  | .polygon n c pts =>
      (pts.mapM (fun p => SGI.apply_transform p m)).map (Drawable.polygon n c)

/-- `Controller` state from controller.py.  The display file is an
insertion-ordered association list (Python dict).  `viewport_size` is the
attached `GraphicalViewer`'s fixed pixel size (the `assert … is not None`
precondition of the viewport transforms is modelled by the field being
present). -/
structure Controller where
  window_pos : Vec2
  window_size : Vec2
  display_file : List (String × Drawable)
  viewport_size : Vec2
  original_window_pos : Vec2
  original_window_size : Vec2
  current_color : String
deriving DecidableEq

/-- Dict lookup `display_file[name]` (by key equality, insertion order kept). -/
def dfLookup (df : List (String × Drawable)) (name : String) : Option Drawable :=
  match df with
  | [] => none
  | (k, v) :: rest => if k = name then some v else dfLookup rest name

/-- In-place update of the entity stored under `name` (Python mutates the
object held by the dict; order and keys are unchanged). -/
def dfUpdate (df : List (String × Drawable)) (name : String) (d : Drawable) :
    List (String × Drawable) :=
  match df with
  | [] => []
  | (k, v) :: rest =>
      if k = name then (k, d) :: rest else (k, v) :: dfUpdate rest name d

/-- `apply_viewport_transform`: world → pixel.  Each coordinate divides by a
window-size component (`none` models the `ZeroDivisionError` when that
component is zero) and truncates with `int(...)`. -/
def apply_viewport_transform (ctl : Controller) (point : Vec2) : Option Vec2 :=
  if ctl.window_size.x = 0 ∨ ctl.window_size.y = 0 then none
  else
    some ⟨((pyInt ((point.x - ctl.window_pos.x)
              / ctl.window_size.x * ctl.viewport_size.x) : ℤ) : ℚ),
          ((pyInt ((1 - point.y - ctl.window_pos.y)
              / ctl.window_size.y * ctl.viewport_size.y) : ℤ) : ℚ)⟩

/-- `apply_inverse_viewport_transform`: pixel → world.  Divides by the
viewport size (`none` models the `ZeroDivisionError` when a component of it
is zero; being pixel dimensions they are positive in every real viewer). -/
def apply_inverse_viewport_transform (ctl : Controller) (point : Vec2) :
    Option Vec2 :=
  if ctl.viewport_size.x = 0 ∨ ctl.viewport_size.y = 0 then none
  else
    some ⟨point.x / ctl.viewport_size.x * ctl.window_size.x + ctl.window_pos.x,
          -(point.y / ctl.viewport_size.y * ctl.window_size.y
              + ctl.window_pos.y - 1)⟩

/-- `zoom_window(zoom_center, amount)`: captures the world point under the
anchor, multiplies the window size by `1 + amount`, recomputes the world
point under the anchor, and shifts the window position by the difference
with the y-sign flipped (the trailing `_update_view()` repaint is a
presentation side effect and leaves the controller state alone). -/
def zoom_window (ctl : Controller) (zoom_center : Vec2) (amount : ℚ) :
    Option Controller := do
  let zoom_center_before ← apply_inverse_viewport_transform ctl zoom_center
  let ctl1 : Controller :=
    { ctl with window_size := ctl.window_size.mul (1 + amount) }
  let zoom_center_after ← apply_inverse_viewport_transform ctl1 zoom_center
  let pan_correction := zoom_center_after.sub zoom_center_before
  pure { ctl1 with
           window_pos :=
             ctl1.window_pos.sub ⟨pan_correction.x, -pan_correction.y⟩ }

/-- `_find_unused_name`: tries `"<prefix> 1"`, `"<prefix> 2"`, … and returns
the first name not present in the display file.  Python's unbounded loop
always terminates within `len(display_file) + 1` tries (pigeonhole), so the
search is over that range; the fallback value is unreachable. -/
def find_unused_name (df : List (String × Drawable)) (pfx : String) : String :=
  ((List.range (df.length + 1)).map (fun i => pfx ++ " " ++ toString (i + 1))
    ).find? (fun nm => (dfLookup df nm).isNone)
    |>.getD (pfx ++ " " ++ toString (df.length + 1))

/-- `create_polygon(points)`: names the polygon, tags it with the current
color, inserts it at the end of the display file and returns it.  The code
performs no check on `points` whatsoever. -/
def create_polygon (ctl : Controller) (points : List Vec2) :
    Controller × Drawable :=
  let name := find_unused_name ctl.display_file "Polígono"
  let pol := Drawable.polygon name ctl.current_color points
  ({ ctl with display_file := ctl.display_file ++ [(name, pol)] }, pol)

/-- Result of a controller call that can raise: `ok` carries the new state,
`err` carries the state as it stands at the moment the exception
propagates out of the method. -/
inductive CallResult where
  | ok (ctl : Controller)
  | err (ctl : Controller)
deriving DecidableEq

/-- The matrix `scale_object` builds: translate the center to the origin,
scale, translate back. -/
def scaleAboutCenterMatrix (center scale_factors : Vec2) : Option Mat3 :=
  compose_transforms
    [make_translate_matrix center.neg,
     make_scale_matrix scale_factors,
     make_translate_matrix center]

/-- `scale_object(name, scale_factors)` on a display-file name: the dict
lookup happens first (a `KeyError` there propagates with no mutation yet
performed), then the center-relative scale matrix is built and applied. -/
def scale_object (ctl : Controller) (name : String) (scale_factors : Vec2) :
    CallResult :=
  match dfLookup ctl.display_file name with
  | none => .err ctl
  | some obj =>
    match scaleAboutCenterMatrix obj.get_center scale_factors with
    | none => .err ctl
    | some matrix =>
      match obj.apply_transform matrix with
      | some obj2 =>
          .ok { ctl with display_file := dfUpdate ctl.display_file name obj2 }
      | none => .err ctl

/-- The `center_of_rotation` argument of `rotate_object`:
`RotationCenter.ORIGIN`, `RotationCenter.OBJECT_CENTER`, or an explicit
world point. -/
inductive RotationCenterArg where
  | origin
  | objectCenter
  | explicitPoint (p : Vec2)
deriving DecidableEq

/-- `rotate_object(name, center_of_rotation, degrees)` on a display-file
name, with the rotation matrix entries `c = cos`, `s = sin` passed in
exactly.  The lookup happens before any mutation; a non-origin pivot wraps
the rotation in translate / rotate / translate-back. -/
def rotate_object (ctl : Controller) (name : String)
    (center_of_rotation : RotationCenterArg) (c s : ℚ) : CallResult :=
  match dfLookup ctl.display_file name with
  | none => .err ctl
  | some obj =>
    let base := make_rotation_matrix c s
    let matrixOpt :=
      match center_of_rotation with
      | .origin => some base
      | .objectCenter =>
          compose_transforms
            [make_translate_matrix obj.get_center.neg,
             base,
             make_translate_matrix obj.get_center]
      | .explicitPoint ctr =>
          compose_transforms
            [make_translate_matrix ctr.neg, base, make_translate_matrix ctr]
    match matrixOpt with
    | none => .err ctl
    | some matrix =>
      match obj.apply_transform matrix with
      | some obj2 =>
          .ok { ctl with display_file := dfUpdate ctl.display_file name obj2 }
      | none => .err ctl

/-- `translate_object(name, delta)`: builds `make_translate_matrix(delta)`
(pure), then looks the name up (a `KeyError` there propagates with nothing
mutated), then applies the matrix. -/
def translate_object (ctl : Controller) (name : String) (delta : Vec2) :
    CallResult :=
  let matrix := make_translate_matrix delta
  match dfLookup ctl.display_file name with
  | none => .err ctl
  | some obj =>
    match obj.apply_transform matrix with
    | some obj2 =>
        .ok { ctl with display_file := dfUpdate ctl.display_file name obj2 }
    | none => .err ctl

/-! ### OBJ-like codec (`sgi/obj.py`)

The file is modelled as the list of its parsed records: each line of the
text format is one record, and Python's float `repr` round-trips exactly
through `float(...)`, so serialising a modelled number and parsing it back
is the identity. -/

/-- One record line of the OBJ-like format: `v x y z`, `l i…`, `f i…`. -/
inductive ObjRecord where
  | vtx (x y z : ℚ)
  | lin (idxs : List ℤ)
  | fac (idxs : List ℤ)
deriving DecidableEq

/-- First-occurrence index of `v` in the vertex table.  The Python dict
`OBJWriter._vertex_indices` always maps a vertex to its 1-based position in
`OBJWriter._vertices` (vertices are only ever appended), so the dict lookup
is modelled by this search. -/
def vertexIndex (vs : List Vec2) (v : Vec2) : Option ℕ :=
  match vs with
  | [] => none
  | w :: rest => if w = v then some 0 else (vertexIndex rest v).map (· + 1)

/-- `OBJWriter._get_vertex_index`: reuses the index of an already-seen
vertex (exact equality), otherwise appends the vertex and assigns it the
next 1-based index.  Returns the possibly extended table and the index. -/
def get_vertex_index (vs : List Vec2) (v : Vec2) : List Vec2 × ℤ :=
  match vertexIndex vs v with
  | some i => (vs, (i : ℤ) + 1)
  | none => (vs ++ [v], (vs.length : ℤ) + 1)

/-- Resolves every vertex of a line/face to its index, threading the
writer's vertex table through (`[self._get_vertex_index(v) for v in
vertices]`). -/
def resolveIndices (vs : List Vec2) (pts : List Vec2) : List Vec2 × List ℤ :=
  match pts with
  | [] => (vs, [])
  | p :: rest =>
    let step := get_vertex_index vs p
    let tail := resolveIndices step.1 rest
    (tail.1, step.2 :: tail.2)

/-- `OBJWriter` state: the deduplicated vertex table and the recorded
index sequences of lines and faces. -/
structure OBJWriter where
  vertices : List Vec2
  lines : List (List ℤ)
  faces : List (List ℤ)
deriving DecidableEq

/-- A fresh `OBJWriter()`. -/
def OBJWriter.empty : OBJWriter := ⟨[], [], []⟩

/-- `OBJWriter.add_line(vertices)`. -/
def OBJWriter.add_line (w : OBJWriter) (pts : List Vec2) : OBJWriter :=
  let r := resolveIndices w.vertices pts
  { w with vertices := r.1, lines := w.lines ++ [r.2] }

/-- `OBJWriter.add_face(vertices)`. -/
def OBJWriter.add_face (w : OBJWriter) (pts : List Vec2) : OBJWriter :=
  let r := resolveIndices w.vertices pts
  { w with vertices := r.1, faces := w.faces ++ [r.2] }

/-- `OBJWriter.write`: one `v` record per vertex-table entry (`z` written
as `0`), then one `l` record per recorded line, then one `f` record per
recorded face. -/
def OBJWriter.write (w : OBJWriter) : List ObjRecord :=
  w.vertices.map (fun v => ObjRecord.vtx v.x v.y 0)
    ++ w.lines.map ObjRecord.lin
    ++ w.faces.map ObjRecord.fac

/-- Python list indexing `xs[i]`: a negative `i` addresses from the end
(`len(xs) + i`); an index outside `[-len(xs), len(xs) - 1]` raises
`IndexError` (`none`). -/
def pyGet (xs : List Vec2) (i : ℤ) : Option Vec2 :=
  let j := if i < 0 then i + (xs.length : ℤ) else i
  if 0 ≤ j then xs.get? j.toNat else none

/-- `OBJReader` state. -/
structure OBJReader where
  vertices : List Vec2
  lines : List (List Vec2)
  faces : List (List Vec2)
deriving DecidableEq

/-- A fresh `OBJReader()`. -/
def OBJReader.empty : OBJReader := ⟨[], [], []⟩

/-- The list comprehension `[self._vertices[int(index) - 1] for index in
indices]`: resolves every index through Python list indexing, aborting at
the first `IndexError`. -/
def resolvePy (vs : List Vec2) : List ℤ → Option (List Vec2)
  | [] => some []
  | i :: rest =>
      match pyGet vs (i - 1), resolvePy vs rest with
      | some p, some ps => some (p :: ps)
      | _, _ => none

/-- One iteration of `OBJReader.read`'s loop on an already-split record.
A `v` record appends the vertex (`z` ignored); an `l`/`f` record resolves
each index `i` as `self._vertices[int(i) - 1]` — Python list indexing, so
`none` models the `IndexError` aborting the read. -/
def readRecord (st : OBJReader) (r : ObjRecord) : Option OBJReader :=
  match r with
  | .vtx x y _z => some { st with vertices := st.vertices ++ [⟨x, y⟩] }
  | .lin idxs =>
      (resolvePy st.vertices idxs).map
        (fun pts => { st with lines := st.lines ++ [pts] })
  | .fac idxs =>
      (resolvePy st.vertices idxs).map
        (fun pts => { st with faces := st.faces ++ [pts] })

/-- The record loop of `OBJReader.read` from a given state: processes the
records in order, aborting at the first failure. -/
def readFrom (st : OBJReader) : List ObjRecord → Option OBJReader
  | [] => some st
  | r :: rest => (readRecord st r).bind fun st1 => readFrom st1 rest

/-- `OBJReader.read` over a whole file, starting from a fresh reader and
aborting at the first failing record. -/
def readAll (rs : List ObjRecord) : Option OBJReader :=
  readFrom OBJReader.empty rs

/-- Builds the writer of the round-trip test: all lines added in order,
then all faces. -/
def buildWriter (lineLists faceLists : List (List Vec2)) : OBJWriter :=
  faceLists.foldl OBJWriter.add_face
    (lineLists.foldl OBJWriter.add_line OBJWriter.empty)

/-- A concrete controller as the test suite builds it: default unit window
at the origin, a 500×500 pixel viewer attached, empty display file. -/
def ctlDemo : Controller :=
  { window_pos := ⟨0, 0⟩
    window_size := ⟨1, 1⟩
    display_file := []
    viewport_size := ⟨500, 500⟩
    original_window_pos := ⟨0, 0⟩
    original_window_size := ⟨1, 1⟩
    current_color := "white" }

/-- The entity's center is defined when a polygon has at least one vertex
(the polygon-center computation divides by `len(points)`). -/
def centerDefined : Drawable → Prop
  | .polygon _ _ pts => pts ≠ []
  | _ => True

/-- The action on a point of a matrix whose bottom row is `(0, 0, 1)`. -/
def applyAffine (m : Mat3) (p : Vec2) : Vec2 :=
  ⟨m.a * p.x + m.b * p.y + m.c, m.d * p.x + m.e * p.y + m.f⟩

/-- The hourglass polygon vertices used by the test suite. -/
def hourglass : List Vec2 :=
  [⟨1/5, 1/5⟩, ⟨4/5, 1/5⟩, ⟨3/5, 1/2⟩, ⟨4/5, 4/5⟩, ⟨1/5, 4/5⟩, ⟨2/5, 1/2⟩]

/-- The hourglass as a named, colored display-file entity. -/
def polyDemo : Drawable := .polygon "Polígono 1" "white" hourglass

/-- The demo controller holding the hourglass polygon. -/
def ctlPoly : Controller := { ctlDemo with display_file := [("Polígono 1", polyDemo)] }

/-- The index sequence `idxs` resolves 1-based against the table `vs` to
exactly the point sequence `pts`. -/
def GoodIdx (vs : List Vec2) (pts : List Vec2) (idxs : List ℤ) : Prop :=
  List.Forall₂ (fun p i => 1 ≤ i ∧ i ≤ (vs.length : ℤ) ∧
    vs.get? (i - 1).toNat = some p) pts idxs

/-! ## Theorems -/

/-- C1: for every pixel anchor `a` and zoom amount `k` with `1 + k ≠ 0`
(and an attached viewer, i.e. nonzero viewport dimensions),
`zoom_window(a, k)` succeeds and the world point under `a` — the value of
`apply_inverse_viewport_transform(a)` — is exactly the same before and
after the call. -/
theorem C1_zoom_anchor_invariance (ctl : Controller) (a : Vec2) (k : ℚ)
    (hvx : ctl.viewport_size.x ≠ 0) (hvy : ctl.viewport_size.y ≠ 0)
    (hk : 1 + k ≠ 0) :
    ∃ ctl2, zoom_window ctl a k = some ctl2 ∧
      apply_inverse_viewport_transform ctl2 a
        = apply_inverse_viewport_transform ctl a := by
  have hcond : ¬(ctl.viewport_size.x = 0 ∨ ctl.viewport_size.y = 0) :=
    not_or.mpr ⟨hvx, hvy⟩
  dsimp only [zoom_window, apply_inverse_viewport_transform,
    Vec2.sub, Vec2.mul]
  simp only [if_neg hcond]
  refine ⟨_, rfl, ?_⟩
  simp only [if_neg hcond, Option.some.injEq, Vec2.mk.injEq]
  constructor
  · field_simp
    ring
  · field_simp
    ring

/-- C1 witness: the test-suite scenario — 500×500 viewport, unit window,
anchor pixel `(250, 250)`, zoom amount `1`. -/
theorem C1_zoom_anchor_invariance_witness :
    ctlDemo.viewport_size.x ≠ 0 ∧ ctlDemo.viewport_size.y ≠ 0 ∧
    (1 + (1 : ℚ)) ≠ 0 ∧
    ∃ ctl2, zoom_window ctlDemo ⟨250, 250⟩ 1 = some ctl2 ∧
      apply_inverse_viewport_transform ctl2 ⟨250, 250⟩
        = apply_inverse_viewport_transform ctlDemo ⟨250, 250⟩ :=
  ⟨by norm_num [ctlDemo], by norm_num [ctlDemo], by norm_num,
   C1_zoom_anchor_invariance ctlDemo ⟨250, 250⟩ 1
     (by norm_num [ctlDemo]) (by norm_num [ctlDemo]) (by norm_num)⟩

/-- C8: looking up an object name absent from the display file makes
`scale_object`, `rotate_object` and `translate_object` fail with the
lookup error (`KeyError`), and the failed call leaves the whole controller
state — returned unchanged inside `err` — exactly as it was. -/
theorem C8_unknown_object_error (ctl : Controller) (name : String)
    (factors delta : Vec2) (ctr : RotationCenterArg) (c s : ℚ)
    (habsent : dfLookup ctl.display_file name = none) :
    scale_object ctl name factors = .err ctl ∧
    rotate_object ctl name ctr c s = .err ctl ∧
    translate_object ctl name delta = .err ctl := by
  unfold scale_object rotate_object translate_object
  rw [habsent]
  exact ⟨rfl, rfl, rfl⟩

/-- C8 witness: the name `"X"` is absent from the fresh controller's empty
display file, and all three transform calls fail leaving it unchanged. -/
theorem C8_unknown_object_error_witness :
    dfLookup ctlDemo.display_file "X" = none ∧
    (scale_object ctlDemo "X" ⟨2, 2⟩ = .err ctlDemo ∧
     rotate_object ctlDemo "X" .objectCenter 1 0 = .err ctlDemo ∧
     translate_object ctlDemo "X" ⟨1, 1⟩ = .err ctlDemo) :=
  ⟨rfl, C8_unknown_object_error ctlDemo "X" ⟨2, 2⟩ ⟨1, 1⟩ .objectCenter 1 0 rfl⟩

/-- C9 counterexample: `create_polygon` on a fresh controller with a single
vertex inserts a 1-vertex polygon into the display file — the claimed
"`len ≥ 3`" invariant does not hold of what `create_polygon` inserts. -/
theorem C9_counterexample :
    (create_polygon ctlDemo [⟨0, 0⟩]).1.display_file =
      [("Polígono 1", Drawable.polygon "Polígono 1" "white" [⟨0, 0⟩])] ∧
    ([(⟨0, 0⟩ : Vec2)]).length < 3 :=
  ⟨rfl, by norm_num⟩

/-- C9 amended: `create_polygon` inserts a polygon carrying exactly the
given vertex sequence, with no check on its length whatsoever — the
display file can hold polygons with fewer than 3 (even zero) vertices. -/
theorem C9_create_polygon_no_arity_check (ctl : Controller)
    (points : List Vec2) :
    ∃ name, (create_polygon ctl points).1.display_file =
      ctl.display_file
        ++ [(name, Drawable.polygon name ctl.current_color points)] ∧
      (create_polygon ctl points).2
        = Drawable.polygon name ctl.current_color points :=
  ⟨_, rfl, rfl⟩

/-- C10: `zoom_window` has no guard on `amount`: with an attached viewer,
`zoom_window(a, -1)` itself succeeds, sets both window-size components to
`0`, and afterwards `apply_viewport_transform` fails with a
division-by-zero error on every point (in particular on every point drawn
while repainting a non-empty display file). -/
theorem C10_zoom_minus_one_kills_transform (ctl : Controller) (a : Vec2)
    (hvx : ctl.viewport_size.x ≠ 0) (hvy : ctl.viewport_size.y ≠ 0) :
    ∃ ctl2, zoom_window ctl a (-1) = some ctl2 ∧
      ctl2.window_size = ⟨0, 0⟩ ∧
      ∀ p, apply_viewport_transform ctl2 p = none := by
  have hcond : ¬(ctl.viewport_size.x = 0 ∨ ctl.viewport_size.y = 0) :=
    not_or.mpr ⟨hvx, hvy⟩
  dsimp only [zoom_window, apply_inverse_viewport_transform,
    Vec2.mul, Vec2.sub]
  simp only [if_neg hcond]
  refine ⟨_, rfl, ?_, ?_⟩
  · simp only [Vec2.mk.injEq]
    norm_num
  · intro p
    dsimp only [apply_viewport_transform]
    rw [if_pos]
    left
    norm_num

/-- C10 witness: zooming by `-1` at pixel `(250, 250)` on the demo
controller zeroes the window size and breaks the viewport transform. -/
theorem C10_zoom_minus_one_kills_transform_witness :
    ctlDemo.viewport_size.x ≠ 0 ∧ ctlDemo.viewport_size.y ≠ 0 ∧
    ∃ ctl2, zoom_window ctlDemo ⟨250, 250⟩ (-1) = some ctl2 ∧
      ctl2.window_size = ⟨0, 0⟩ ∧
      ∀ p, apply_viewport_transform ctl2 p = none :=
  ⟨by norm_num [ctlDemo], by norm_num [ctlDemo],
   C10_zoom_minus_one_kills_transform ctlDemo ⟨250, 250⟩
     (by norm_num [ctlDemo]) (by norm_num [ctlDemo])⟩

/-- C3 counterexample: on the demo controller the point
`(-1/1000, 0)` has pre-rounding x-quantity `-1/2`; the code truncates it
toward zero and returns pixel x `0`, while the claimed `floor` is `-1` —
so `apply_viewport_transform` does not return the floor of the quantities
when they are negative. -/
theorem C3_counterexample :
    apply_viewport_transform ctlDemo ⟨-1/1000, 0⟩
        = some ⟨((0 : ℤ) : ℚ), ((500 : ℤ) : ℚ)⟩ ∧
    (⌊((-1/1000 : ℚ) - ctlDemo.window_pos.x) / ctlDemo.window_size.x
        * ctlDemo.viewport_size.x⌋ : ℤ) = -1 ∧
    apply_viewport_transform ctlDemo ⟨-1/1000, 0⟩
        ≠ some ⟨((-1 : ℤ) : ℚ), ((500 : ℤ) : ℚ)⟩ := by
  refine ⟨?_, ?_, ?_⟩
  · simp [apply_viewport_transform, ctlDemo, pyInt]
    norm_num
  · norm_num [ctlDemo]
  · simp only [apply_viewport_transform, ctlDemo, pyInt]
    norm_num
    rw [show (⌈-(1/2 : ℚ)⌉ : ℤ) = 0 by norm_num]
    norm_num

/-- C3 amended: `apply_viewport_transform` truncates toward zero (Python
`int(...)`), which agrees with the claimed `floor` exactly when both
pre-rounding quantities are nonnegative. -/
theorem C3_floor_on_nonneg (ctl : Controller) (p : Vec2)
    (hwx : ctl.window_size.x ≠ 0) (hwy : ctl.window_size.y ≠ 0)
    (hqx : 0 ≤ (p.x - ctl.window_pos.x) / ctl.window_size.x
        * ctl.viewport_size.x)
    (hqy : 0 ≤ (1 - p.y - ctl.window_pos.y) / ctl.window_size.y
        * ctl.viewport_size.y) :
    apply_viewport_transform ctl p =
      some ⟨((⌊(p.x - ctl.window_pos.x) / ctl.window_size.x
                * ctl.viewport_size.x⌋ : ℤ) : ℚ),
            ((⌊(1 - p.y - ctl.window_pos.y) / ctl.window_size.y
                * ctl.viewport_size.y⌋ : ℤ) : ℚ)⟩ := by
  dsimp only [apply_viewport_transform]
  rw [if_neg (not_or.mpr ⟨hwx, hwy⟩)]
  simp only [pyInt, if_pos hqx, if_pos hqy]

/-- C3 witness: the hourglass vertex `(1/5, 1/5)` on the demo controller
has nonnegative pre-rounding quantities `100` and `400`, and the transform
returns their floors. -/
theorem C3_floor_on_nonneg_witness :
    ctlDemo.window_size.x ≠ 0 ∧ ctlDemo.window_size.y ≠ 0 ∧
    0 ≤ ((1/5 : ℚ) - ctlDemo.window_pos.x) / ctlDemo.window_size.x
        * ctlDemo.viewport_size.x ∧
    0 ≤ (1 - (1/5 : ℚ) - ctlDemo.window_pos.y) / ctlDemo.window_size.y
        * ctlDemo.viewport_size.y ∧
    apply_viewport_transform ctlDemo ⟨1/5, 1/5⟩ =
      some ⟨((⌊((1/5 : ℚ) - ctlDemo.window_pos.x) / ctlDemo.window_size.x
                * ctlDemo.viewport_size.x⌋ : ℤ) : ℚ),
            ((⌊(1 - (1/5 : ℚ) - ctlDemo.window_pos.y) / ctlDemo.window_size.y
                * ctlDemo.viewport_size.y⌋ : ℤ) : ℚ)⟩ :=
  ⟨by norm_num [ctlDemo], by norm_num [ctlDemo], by norm_num [ctlDemo],
   by norm_num [ctlDemo],
   C3_floor_on_nonneg ctlDemo ⟨1/5, 1/5⟩ (by norm_num [ctlDemo])
     (by norm_num [ctlDemo]) (by norm_num [ctlDemo]) (by norm_num [ctlDemo])⟩

/-- Matrix multiplication of the embedded 3×3 matrices is associative. -/
theorem matMul_assoc (x y z : Mat3) :
    matMul (matMul x y) z = matMul x (matMul y z) := by
  simp only [matMul, Mat3.mk.injEq]
  refine ⟨?_, ?_, ?_, ?_, ?_, ?_, ?_, ?_, ?_⟩ <;> ring

/-- C6: for affine matrices `A`, `B`, `C` (bottom row `(0, 0, 1)`),
`compose_transforms [A, B, C]` is the matrix product `C · B · A`, and
applying it to a point equals applying `A`, then `B`, then `C` in
sequence — the first list element acts first. -/
theorem C6_compose_order (A B C : Mat3) (p : Vec2)
    (hA : A.g = 0 ∧ A.h = 0 ∧ A.i = 1)
    (hB : B.g = 0 ∧ B.h = 0 ∧ B.i = 1)
    (hC : C.g = 0 ∧ C.h = 0 ∧ C.i = 1) :
    compose_transforms [A, B, C] = some (matMul C (matMul B A)) ∧
    apply_transform p (matMul C (matMul B A)) =
      ((apply_transform p A).bind fun q =>
        (apply_transform q B).bind fun r => apply_transform r C) := by
  obtain ⟨hA1, hA2, hA3⟩ := hA
  obtain ⟨hB1, hB2, hB3⟩ := hB
  obtain ⟨hC1, hC2, hC3⟩ := hC
  constructor
  · show some (matMul (matMul C B) A) = _
    rw [matMul_assoc]
  · simp only [apply_transform, matMul, hA1, hA2, hA3, hB1, hB2, hB3,
      hC1, hC2, hC3, zero_mul, mul_zero, one_mul, mul_one, zero_add,
      add_zero, if_true, Option.bind_some, Option.some.injEq, Vec2.mk.injEq]
    norm_num
    constructor <;> ring

/-- C6 witness: a translation, a scale and another translation composed on
the point `(7, 11)`. -/
theorem C6_compose_order_witness :
    ((make_translate_matrix ⟨1, 2⟩).g = 0 ∧ (make_translate_matrix ⟨1, 2⟩).h = 0
      ∧ (make_translate_matrix ⟨1, 2⟩).i = 1) ∧
    ((make_scale_matrix ⟨2, 3⟩).g = 0 ∧ (make_scale_matrix ⟨2, 3⟩).h = 0
      ∧ (make_scale_matrix ⟨2, 3⟩).i = 1) ∧
    ((make_translate_matrix ⟨-4, 5⟩).g = 0 ∧ (make_translate_matrix ⟨-4, 5⟩).h = 0
      ∧ (make_translate_matrix ⟨-4, 5⟩).i = 1) ∧
    (compose_transforms
        [make_translate_matrix ⟨1, 2⟩, make_scale_matrix ⟨2, 3⟩,
         make_translate_matrix ⟨-4, 5⟩] =
      some (matMul (make_translate_matrix ⟨-4, 5⟩)
        (matMul (make_scale_matrix ⟨2, 3⟩) (make_translate_matrix ⟨1, 2⟩))) ∧
    apply_transform ⟨7, 11⟩
        (matMul (make_translate_matrix ⟨-4, 5⟩)
          (matMul (make_scale_matrix ⟨2, 3⟩) (make_translate_matrix ⟨1, 2⟩))) =
      ((apply_transform ⟨7, 11⟩ (make_translate_matrix ⟨1, 2⟩)).bind fun q =>
        (apply_transform q (make_scale_matrix ⟨2, 3⟩)).bind fun r =>
          apply_transform r (make_translate_matrix ⟨-4, 5⟩))) :=
  ⟨⟨rfl, rfl, rfl⟩, ⟨rfl, rfl, rfl⟩, ⟨rfl, rfl, rfl⟩,
   C6_compose_order _ _ _ ⟨7, 11⟩ ⟨rfl, rfl, rfl⟩ ⟨rfl, rfl, rfl⟩ ⟨rfl, rfl, rfl⟩⟩

/-- Truncation toward zero moves a rational by less than one. -/
theorem abs_pyInt_sub_le (q : ℚ) : |((pyInt q : ℤ) : ℚ) - q| ≤ 1 := by
  rw [abs_le]
  unfold pyInt
  split
  · constructor
    · have := Int.sub_one_lt_floor q
      linarith
    · have := Int.floor_le q
      linarith
  · constructor
    · have := Int.le_ceil q
      linarith
    · have := Int.ceil_lt_add_one q
      linarith

/-- C2: with positive window-size components and an attached viewer of
positive pixel dimensions, the round trip world → pixel → world moves a
point by at most one pixel's world-space extent in each component. -/
theorem C2_roundtrip_bound (ctl : Controller) (p : Vec2)
    (hwx : 0 < ctl.window_size.x) (hwy : 0 < ctl.window_size.y)
    (hvx : 0 < ctl.viewport_size.x) (hvy : 0 < ctl.viewport_size.y) :
    ∃ px wpt, apply_viewport_transform ctl p = some px ∧
      apply_inverse_viewport_transform ctl px = some wpt ∧
      |wpt.x - p.x| ≤ ctl.window_size.x / ctl.viewport_size.x ∧
      |wpt.y - p.y| ≤ ctl.window_size.y / ctl.viewport_size.y := by
  have hwx0 : ctl.window_size.x ≠ 0 := hwx.ne'
  have hwy0 : ctl.window_size.y ≠ 0 := hwy.ne'
  have hvx0 : ctl.viewport_size.x ≠ 0 := hvx.ne'
  have hvy0 : ctl.viewport_size.y ≠ 0 := hvy.ne'
  have hcond1 : ¬(ctl.window_size.x = 0 ∨ ctl.window_size.y = 0) :=
    not_or.mpr ⟨hwx0, hwy0⟩
  have hcond2 : ¬(ctl.viewport_size.x = 0 ∨ ctl.viewport_size.y = 0) :=
    not_or.mpr ⟨hvx0, hvy0⟩
  dsimp only [apply_viewport_transform, apply_inverse_viewport_transform]
  simp only [if_neg hcond1, if_neg hcond2]
  refine ⟨_, _, rfl, rfl, ?_, ?_⟩
  · set tx := (p.x - ctl.window_pos.x) / ctl.window_size.x * ctl.viewport_size.x
      with htx
    have key : ((pyInt tx : ℤ) : ℚ) / ctl.viewport_size.x * ctl.window_size.x
        + ctl.window_pos.x - p.x
        = (((pyInt tx : ℤ) : ℚ) - tx)
            * (ctl.window_size.x / ctl.viewport_size.x) := by
      rw [htx]
      field_simp
      ring
    rw [key, abs_mul, abs_of_pos (div_pos hwx hvx)]
    exact mul_le_of_le_one_left (div_pos hwx hvx).le (abs_pyInt_sub_le tx)
  · set ty := (1 - p.y - ctl.window_pos.y) / ctl.window_size.y
        * ctl.viewport_size.y with hty
    have key : -(((pyInt ty : ℤ) : ℚ) / ctl.viewport_size.y * ctl.window_size.y
        + ctl.window_pos.y - 1) - p.y
        = (ty - ((pyInt ty : ℤ) : ℚ))
            * (ctl.window_size.y / ctl.viewport_size.y) := by
      rw [hty]
      field_simp
      ring
    rw [key, abs_mul, abs_of_pos (div_pos hwy hvy), abs_sub_comm]
    exact mul_le_of_le_one_left (div_pos hwy hvy).le (abs_pyInt_sub_le ty)

/-- C2 witness: the world point `(3/5, 1/2)` on the demo controller
round-trips to within one pixel's world extent (`1/500`). -/
theorem C2_roundtrip_bound_witness :
    0 < ctlDemo.window_size.x ∧ 0 < ctlDemo.window_size.y ∧
    0 < ctlDemo.viewport_size.x ∧ 0 < ctlDemo.viewport_size.y ∧
    ∃ px wpt, apply_viewport_transform ctlDemo ⟨3/5, 1/2⟩ = some px ∧
      apply_inverse_viewport_transform ctlDemo px = some wpt ∧
      |wpt.x - (3/5 : ℚ)| ≤ ctlDemo.window_size.x / ctlDemo.viewport_size.x ∧
      |wpt.y - (1/2 : ℚ)| ≤ ctlDemo.window_size.y / ctlDemo.viewport_size.y :=
  ⟨by norm_num [ctlDemo], by norm_num [ctlDemo], by norm_num [ctlDemo],
   by norm_num [ctlDemo],
   C2_roundtrip_bound ctlDemo ⟨3/5, 1/2⟩ (by norm_num [ctlDemo])
     (by norm_num [ctlDemo]) (by norm_num [ctlDemo]) (by norm_num [ctlDemo])⟩

theorem apply_transform_affine (m : Mat3) (p : Vec2)
    (hm : m.g = 0 ∧ m.h = 0 ∧ m.i = 1) :
    apply_transform p m = some (applyAffine m p) := by
  obtain ⟨h1, h2, h3⟩ := hm
  dsimp only [apply_transform]
  rw [if_pos]
  · rfl
  · rw [h1, h2, h3]
    ring

theorem foldl_add_x (ps : List Vec2) (a : Vec2) :
    (ps.foldl Vec2.add a).x = a.x + (ps.map Vec2.x).sum := by
  induction ps generalizing a with
  | nil => simp
  | cons p ps ih =>
      rw [List.foldl_cons, ih]
      simp [Vec2.add]
      ring

theorem foldl_add_y (ps : List Vec2) (a : Vec2) :
    (ps.foldl Vec2.add a).y = a.y + (ps.map Vec2.y).sum := by
  induction ps generalizing a with
  | nil => simp
  | cons p ps ih =>
      rw [List.foldl_cons, ih]
      simp [Vec2.add]
      ring

theorem vecSum_x (ps : List Vec2) : (vecSum ps).x = (ps.map Vec2.x).sum := by
  rw [vecSum, foldl_add_x]
  norm_num

theorem vecSum_y (ps : List Vec2) : (vecSum ps).y = (ps.map Vec2.y).sum := by
  rw [vecSum, foldl_add_y]
  norm_num

theorem sum_affine_comb (ps : List Vec2) (a b c : ℚ) :
    (ps.map (fun p => a * p.x + b * p.y + c)).sum
      = a * (ps.map Vec2.x).sum + b * (ps.map Vec2.y).sum
        + (ps.length : ℚ) * c := by
  induction ps with
  | nil => simp
  | cons p ps ih =>
      simp [ih]
      ring

theorem mapM_apply_transform (m : Mat3) (hm : m.g = 0 ∧ m.h = 0 ∧ m.i = 1)
    (ps : List Vec2) :
    ps.mapM (fun p => apply_transform p m) = some (ps.map (applyAffine m)) := by
  induction ps with
  | nil => rfl
  | cons p ps ih =>
      rw [List.mapM_cons, apply_transform_affine m p hm, ih]
      rfl

/-- An affine transform commutes with `get_center`: applying a bottom-row
`(0, 0, 1)` matrix to an entity succeeds and maps its center by the same
affine action. -/
theorem apply_transform_center (e : Drawable) (m : Mat3)
    (hm : m.g = 0 ∧ m.h = 0 ∧ m.i = 1) (hwf : centerDefined e) :
    ∃ e2, e.apply_transform m = some e2 ∧
      e2.get_center = applyAffine m e.get_center := by
  cases e with
  | point n c p =>
      refine ⟨Drawable.point n c (applyAffine m p), ?_, rfl⟩
      rw [Drawable.apply_transform, apply_transform_affine m p hm]
      rfl
  | line n c s t =>
      refine ⟨Drawable.line n c (applyAffine m s) (applyAffine m t), ?_, ?_⟩
      · rw [Drawable.apply_transform, apply_transform_affine m s hm,
          Option.bind_eq_bind, Option.some_bind, apply_transform_affine m t hm,
          Option.some_bind]
        rfl
      · show ((applyAffine m s).add (applyAffine m t)).div 2
            = applyAffine m ((s.add t).div 2)
        simp only [applyAffine, Vec2.add, Vec2.div, Vec2.mk.injEq]
        constructor <;> ring
  | polygon n c pts =>
      have hn : (pts.length : ℚ) ≠ 0 := by
        have h0 : pts.length ≠ 0 := by
          simpa [List.length_eq_zero] using hwf
        exact_mod_cast h0
      refine ⟨Drawable.polygon n c (pts.map (applyAffine m)), ?_, ?_⟩
      · rw [Drawable.apply_transform, mapM_apply_transform m hm]
        rfl
      · show (vecSum (pts.map (applyAffine m))).div ((pts.map (applyAffine m)).length : ℚ)
            = applyAffine m ((vecSum pts).div (pts.length : ℚ))
        simp only [Vec2.div, applyAffine, List.length_map, Vec2.mk.injEq]
        constructor
        · rw [vecSum_x]
          have : (pts.map (applyAffine m)).map Vec2.x
              = pts.map (fun p => m.a * p.x + m.b * p.y + m.c) := by
            rw [List.map_map]
            rfl
          rw [this, sum_affine_comb, ← vecSum_x, ← vecSum_y]
          field_simp
          ring
        · rw [vecSum_y]
          have : (pts.map (applyAffine m)).map Vec2.y
              = pts.map (fun p => m.d * p.x + m.e * p.y + m.f) := by
            rw [List.map_map]
            rfl
          rw [this, sum_affine_comb, ← vecSum_x, ← vecSum_y]
          field_simp
          ring

theorem scaleAboutCenterMatrix_eq (center factors : Vec2) :
    scaleAboutCenterMatrix center factors =
      some (matMul (matMul (make_translate_matrix center)
        (make_scale_matrix factors)) (make_translate_matrix center.neg)) := rfl

theorem scaleMatrix_affine (center factors : Vec2) :
    (matMul (matMul (make_translate_matrix center) (make_scale_matrix factors))
      (make_translate_matrix center.neg)).g = 0 ∧
    (matMul (matMul (make_translate_matrix center) (make_scale_matrix factors))
      (make_translate_matrix center.neg)).h = 0 ∧
    (matMul (matMul (make_translate_matrix center) (make_scale_matrix factors))
      (make_translate_matrix center.neg)).i = 1 := by
  refine ⟨?_, ?_, ?_⟩ <;>
    simp [matMul, make_translate_matrix, make_scale_matrix, Vec2.neg]

theorem scaleMatrix_fixes_center (center factors : Vec2) :
    applyAffine (matMul (matMul (make_translate_matrix center)
      (make_scale_matrix factors)) (make_translate_matrix center.neg)) center
      = center := by
  cases center with
  | mk cx cy =>
      simp only [applyAffine, matMul, make_translate_matrix, make_scale_matrix,
        Vec2.neg, Vec2.mk.injEq]
      constructor <;> ring

theorem dfLookup_update (df : List (String × Drawable)) (name : String)
    (d e : Drawable) (h : dfLookup df name = some e) :
    dfLookup (dfUpdate df name d) name = some d := by
  induction df with
  | nil => simp [dfLookup] at h
  | cons kv rest ih =>
      obtain ⟨k, v⟩ := kv
      by_cases hk : k = name
      · simp [dfUpdate, dfLookup, hk]
      · simp only [dfUpdate, dfLookup, if_neg hk] at h ⊢
        exact ih h

/-- C7: for every entity found in the display file (a point, a line, or a
polygon with at least one vertex), `scale_object` succeeds for any scale
factors and leaves the entity's `get_center()` exactly unchanged — the
scale is always taken about the object's own centroid. -/
theorem C7_scale_preserves_center (ctl : Controller) (name : String)
    (e : Drawable) (factors : Vec2)
    (hfound : dfLookup ctl.display_file name = some e)
    (hwf : centerDefined e) :
    ∃ ctl2 e2, scale_object ctl name factors = .ok ctl2 ∧
      dfLookup ctl2.display_file name = some e2 ∧
      e2.get_center = e.get_center := by
  obtain ⟨e2, happ, hcent⟩ :=
    apply_transform_center e _ (scaleMatrix_affine e.get_center factors) hwf
  refine ⟨{ ctl with display_file := dfUpdate ctl.display_file name e2 },
    e2, ?_, ?_, ?_⟩
  · unfold scale_object
    simp only [hfound, scaleAboutCenterMatrix_eq, happ]
  · exact dfLookup_update ctl.display_file name e2 e hfound
  · rw [hcent, scaleMatrix_fixes_center]

/-- C7 witness: the hourglass polygon of the test suite scaled by
`(2, 2)` keeps its center. -/
theorem C7_scale_preserves_center_witness :
    dfLookup ctlPoly.display_file "Polígono 1" = some polyDemo ∧
    centerDefined polyDemo ∧
    ∃ ctl2 e2, scale_object ctlPoly "Polígono 1" ⟨2, 2⟩ = .ok ctl2 ∧
      dfLookup ctl2.display_file "Polígono 1" = some e2 ∧
      e2.get_center = polyDemo.get_center :=
  ⟨rfl, List.cons_ne_nil _ _,
   C7_scale_preserves_center ctlPoly "Polígono 1" polyDemo ⟨2, 2⟩ rfl
     (List.cons_ne_nil _ _)⟩

theorem pyGet_sub_one_eq_none_iff (vs : List Vec2) (i : ℤ) :
    pyGet vs (i - 1) = none ↔
      i < 1 - (vs.length : ℤ) ∨ (vs.length : ℤ) < i := by
  unfold pyGet
  dsimp only
  split_ifs with h1 h2 h3
  · rw [List.get?_eq_none]
    omega
  · simp
    omega
  · rw [List.get?_eq_none]
    omega
  · omega

theorem resolvePy_eq_none_iff (vs : List Vec2) (idxs : List ℤ) :
    resolvePy vs idxs = none ↔ ∃ i ∈ idxs, pyGet vs (i - 1) = none := by
  induction idxs with
  | nil => simp [resolvePy]
  | cons i rest ih =>
      cases h : pyGet vs (i - 1) with
      | none =>
          simp only [resolvePy, h]
          constructor
          · intro _
            exact ⟨i, by simp, h⟩
          · intro _
            trivial
      | some p =>
          cases hrest : resolvePy vs rest with
          | none =>
              simp only [resolvePy, h, hrest]
              constructor
              · intro _
                obtain ⟨j, hj, hjn⟩ := ih.mp hrest
                exact ⟨j, by simp [hj], hjn⟩
              · intro _
                trivial
          | some ps =>
              simp only [resolvePy, h, hrest]
              constructor
              · intro hc
                exact absurd hc (by simp)
              · rintro ⟨j, hj, hjn⟩
                exfalso
                rcases List.mem_cons.mp hj with rfl | hj2
                · rw [h] at hjn
                  exact Option.noConfusion hjn
                · have hn := ih.mpr ⟨j, hj2, hjn⟩
                  rw [hrest] at hn
                  exact Option.noConfusion hn

/-- C4 amended: an `l` or `f` record aborts the read with an index error
exactly when some index `i` falls outside `[1 − n, n]`, where `n` is the
number of vertices read so far; indices in `[1 − n, 0]` — `0` and negative
values included — do **not** fail but resolve through Python's negative
indexing to vertices counted from the end of the table. -/
theorem C4_index_out_of_range (st : OBJReader) (idxs : List ℤ) :
    (readRecord st (.lin idxs) = none ↔
      ∃ i ∈ idxs, i < 1 - (st.vertices.length : ℤ)
        ∨ (st.vertices.length : ℤ) < i) ∧
    (readRecord st (.fac idxs) = none ↔
      ∃ i ∈ idxs, i < 1 - (st.vertices.length : ℤ)
        ∨ (st.vertices.length : ℤ) < i) := by
  constructor <;>
  · dsimp only [readRecord]
    rw [Option.map_eq_none', resolvePy_eq_none_iff]
    constructor
    · rintro ⟨i, hmem, hnone⟩
      exact ⟨i, hmem, (pyGet_sub_one_eq_none_iff _ _).mp hnone⟩
    · rintro ⟨i, hmem, hrange⟩
      exact ⟨i, hmem, (pyGet_sub_one_eq_none_iff _ _).mpr hrange⟩

/-- C4 counterexample: a file whose `l` record uses index `0` after one
`v` record.  Index `0` names no vertex (the format is 1-based), yet the
read succeeds — `_vertices[0 - 1]` is Python negative indexing and yields
the **last** vertex read so far. -/
theorem C4_counterexample :
    readAll [ObjRecord.vtx 1 2 0, ObjRecord.lin [0]]
      = some ⟨[⟨1, 2⟩], [[⟨1, 2⟩]], []⟩ ∧
    readAll [ObjRecord.vtx 1 2 0, ObjRecord.lin [0]] ≠ none := by
  refine ⟨rfl, ?_⟩
  rw [show readAll [ObjRecord.vtx 1 2 0, ObjRecord.lin [0]]
      = some ⟨[⟨1, 2⟩], [[⟨1, 2⟩]], []⟩ from rfl]
  simp

theorem vertexIndex_spec (vs : List Vec2) (v : Vec2) (j : ℕ)
    (h : vertexIndex vs v = some j) : vs.get? j = some v := by
  induction vs generalizing j with
  | nil => simp [vertexIndex] at h
  | cons w rest ih =>
      by_cases hw : w = v
      · rw [vertexIndex, if_pos hw] at h
        obtain rfl : (0 : ℕ) = j := Option.some.inj h
        simp [hw]
      · rw [vertexIndex, if_neg hw] at h
        obtain ⟨j0, hj0, rfl⟩ := Option.map_eq_some'.mp h
        simpa using ih j0 hj0

theorem get_vertex_index_spec (vs : List Vec2) (v : Vec2) :
    ∃ t, (get_vertex_index vs v).1 = vs ++ t ∧
      1 ≤ (get_vertex_index vs v).2 ∧
      (get_vertex_index vs v).2 ≤ ((get_vertex_index vs v).1.length : ℤ) ∧
      (get_vertex_index vs v).1.get? ((get_vertex_index vs v).2 - 1).toNat
        = some v := by
  cases hvi : vertexIndex vs v with
  | some j =>
      have hget := vertexIndex_spec vs v j hvi
      have hlt : j < vs.length := (List.get?_eq_some.mp hget).1
      refine ⟨[], ?_, ?_, ?_, ?_⟩ <;>
        simp only [get_vertex_index, hvi, List.append_nil]
      · omega
      · omega
      · have : ((j : ℤ) + 1 - 1).toNat = j := by omega
        rw [this]
        exact hget
  | none =>
      refine ⟨[v], ?_, ?_, ?_, ?_⟩ <;>
        simp only [get_vertex_index, hvi]
      · omega
      · simp only [List.length_append, List.length_cons, List.length_nil]
        push_cast
        omega
      · have : ((vs.length : ℤ) + 1 - 1).toNat = vs.length := by omega
        rw [this]
        exact List.get?_concat_length vs v

theorem goodIdx_append (vs t : List Vec2) (pts : List Vec2) (idxs : List ℤ)
    (h : GoodIdx vs pts idxs) : GoodIdx (vs ++ t) pts idxs := by
  refine h.imp ?_
  rintro p i ⟨h1, h2, h3⟩
  have hlt : (i - 1).toNat < vs.length := (List.get?_eq_some.mp h3).1
  refine ⟨h1, ?_, ?_⟩
  · rw [List.length_append]
    push_cast
    omega
  · rw [List.get?_append hlt]
    exact h3

theorem resolveIndices_spec (pts : List Vec2) (vs : List Vec2) :
    ∃ t, (resolveIndices vs pts).1 = vs ++ t ∧
      GoodIdx (resolveIndices vs pts).1 pts (resolveIndices vs pts).2 := by
  induction pts generalizing vs with
  | nil => exact ⟨[], (List.append_nil vs).symm, List.Forall₂.nil⟩
  | cons p rest ih =>
      obtain ⟨t1, ht1, h1, h2, h3⟩ := get_vertex_index_spec vs p
      obtain ⟨t2, ht2, hgood⟩ := ih (get_vertex_index vs p).1
      have hlt : (((get_vertex_index vs p).2 - 1)).toNat
          < (get_vertex_index vs p).1.length := (List.get?_eq_some.mp h3).1
      have hres1 : (resolveIndices vs (p :: rest)).1
          = (resolveIndices (get_vertex_index vs p).1 rest).1 := rfl
      have hres2 : (resolveIndices vs (p :: rest)).2
          = (get_vertex_index vs p).2
            :: (resolveIndices (get_vertex_index vs p).1 rest).2 := rfl
      refine ⟨t1 ++ t2, ?_, ?_⟩
      · rw [hres1, ht2, ht1, List.append_assoc]
      · rw [GoodIdx, hres1, hres2]
        refine List.Forall₂.cons ⟨h1, ?_, ?_⟩ hgood
        · rw [ht2, List.length_append]
          push_cast
          omega
        · rw [ht2, List.get?_append hlt]
          exact h3

theorem forall₂_goodIdx_append (vs t : List Vec2)
    (lls : List (List Vec2)) (idxss : List (List ℤ))
    (h : List.Forall₂ (GoodIdx vs) lls idxss) :
    List.Forall₂ (GoodIdx (vs ++ t)) lls idxss :=
  h.imp (fun a b hpi => goodIdx_append vs t a b hpi)

theorem addLines_spec (lls : List (List Vec2)) (w : OBJWriter)
    (X : List (List Vec2))
    (hX : List.Forall₂ (GoodIdx w.vertices) X w.lines) :
    ∃ t, (lls.foldl OBJWriter.add_line w).vertices = w.vertices ++ t ∧
      List.Forall₂ (GoodIdx (lls.foldl OBJWriter.add_line w).vertices)
        (X ++ lls) (lls.foldl OBJWriter.add_line w).lines ∧
      (lls.foldl OBJWriter.add_line w).faces = w.faces := by
  induction lls generalizing w X with
  | nil =>
      refine ⟨[], (List.append_nil _).symm, ?_, rfl⟩
      simpa using hX
  | cons pts rest ih =>
      obtain ⟨t1, ht1, hgood⟩ := resolveIndices_spec pts w.vertices
      have hw1v : (w.add_line pts).vertices = (resolveIndices w.vertices pts).1 := rfl
      have hw1l : (w.add_line pts).lines
          = w.lines ++ [(resolveIndices w.vertices pts).2] := rfl
      have hw1f : (w.add_line pts).faces = w.faces := rfl
      have hX1 : List.Forall₂ (GoodIdx (w.add_line pts).vertices)
          (X ++ [pts]) (w.add_line pts).lines := by
        rw [hw1v, hw1l, ht1]
        exact List.rel_append (forall₂_goodIdx_append _ _ _ _ hX)
          (List.Forall₂.cons (by rw [← ht1]; exact hgood) List.Forall₂.nil)
      obtain ⟨t2, ht2, hfin, hfaces⟩ := ih (w.add_line pts) (X ++ [pts]) hX1
      refine ⟨t1 ++ t2, ?_, ?_, ?_⟩
      · show (rest.foldl OBJWriter.add_line (w.add_line pts)).vertices = _
        rw [ht2, hw1v, ht1, List.append_assoc]
      · show List.Forall₂ _ _ (rest.foldl OBJWriter.add_line (w.add_line pts)).lines
        rw [List.append_cons X pts rest]
        exact hfin
      · show (rest.foldl OBJWriter.add_line (w.add_line pts)).faces = _
        rw [hfaces, hw1f]

theorem addFaces_spec (ffs : List (List Vec2)) (w : OBJWriter)
    (Y : List (List Vec2))
    (hY : List.Forall₂ (GoodIdx w.vertices) Y w.faces) :
    ∃ t, (ffs.foldl OBJWriter.add_face w).vertices = w.vertices ++ t ∧
      List.Forall₂ (GoodIdx (ffs.foldl OBJWriter.add_face w).vertices)
        (Y ++ ffs) (ffs.foldl OBJWriter.add_face w).faces ∧
      (ffs.foldl OBJWriter.add_face w).lines = w.lines := by
  induction ffs generalizing w Y with
  | nil =>
      refine ⟨[], (List.append_nil _).symm, ?_, rfl⟩
      simpa using hY
  | cons pts rest ih =>
      obtain ⟨t1, ht1, hgood⟩ := resolveIndices_spec pts w.vertices
      have hw1v : (w.add_face pts).vertices = (resolveIndices w.vertices pts).1 := rfl
      have hw1f : (w.add_face pts).faces
          = w.faces ++ [(resolveIndices w.vertices pts).2] := rfl
      have hw1l : (w.add_face pts).lines = w.lines := rfl
      have hY1 : List.Forall₂ (GoodIdx (w.add_face pts).vertices)
          (Y ++ [pts]) (w.add_face pts).faces := by
        rw [hw1v, hw1f, ht1]
        exact List.rel_append (forall₂_goodIdx_append _ _ _ _ hY)
          (List.Forall₂.cons (by rw [← ht1]; exact hgood) List.Forall₂.nil)
      obtain ⟨t2, ht2, hfin, hlines⟩ := ih (w.add_face pts) (Y ++ [pts]) hY1
      refine ⟨t1 ++ t2, ?_, ?_, ?_⟩
      · show (rest.foldl OBJWriter.add_face (w.add_face pts)).vertices = _
        rw [ht2, hw1v, ht1, List.append_assoc]
      · show List.Forall₂ _ _ (rest.foldl OBJWriter.add_face (w.add_face pts)).faces
        rw [List.append_cons Y pts rest]
        exact hfin
      · show (rest.foldl OBJWriter.add_face (w.add_face pts)).lines = _
        rw [hlines, hw1l]

theorem buildWriter_spec (lls ffs : List (List Vec2)) :
    List.Forall₂ (GoodIdx (buildWriter lls ffs).vertices) lls
      (buildWriter lls ffs).lines ∧
    List.Forall₂ (GoodIdx (buildWriter lls ffs).vertices) ffs
      (buildWriter lls ffs).faces := by
  obtain ⟨t1, ht1, hlines1, hfaces1⟩ :=
    addLines_spec lls OBJWriter.empty [] List.Forall₂.nil
  have hfempty : (lls.foldl OBJWriter.add_line OBJWriter.empty).faces = [] :=
    hfaces1
  obtain ⟨t2, ht2, hfaces2, hlines2⟩ :=
    addFaces_spec ffs (lls.foldl OBJWriter.add_line OBJWriter.empty) []
      (by rw [hfempty]; exact List.Forall₂.nil)
  constructor
  · show List.Forall₂
      (GoodIdx (ffs.foldl OBJWriter.add_face
        (lls.foldl OBJWriter.add_line OBJWriter.empty)).vertices) lls _
    rw [show (buildWriter lls ffs).lines
        = (lls.foldl OBJWriter.add_line OBJWriter.empty).lines from hlines2]
    rw [ht2]
    refine forall₂_goodIdx_append _ _ _ _ ?_
    simpa using hlines1
  · simpa using hfaces2

theorem readFrom_append (st : OBJReader) (l1 l2 : List ObjRecord) :
    readFrom st (l1 ++ l2)
      = (readFrom st l1).bind fun st1 => readFrom st1 l2 := by
  induction l1 generalizing st with
  | nil => rfl
  | cons r rest ih =>
      show (readRecord st r).bind _ = ((readRecord st r).bind _).bind _
      cases readRecord st r with
      | none => rfl
      | some st1 => exact ih st1

theorem readFrom_vtx (vs : List Vec2) (st : OBJReader) :
    readFrom st (vs.map (fun v => ObjRecord.vtx v.x v.y 0))
      = some ⟨st.vertices ++ vs, st.lines, st.faces⟩ := by
  induction vs generalizing st with
  | nil => simp [readFrom]
  | cons v rest ih =>
      show (readRecord st (ObjRecord.vtx v.x v.y 0)).bind _ = _
      rw [show readRecord st (ObjRecord.vtx v.x v.y 0)
          = some { st with vertices := st.vertices ++ [⟨v.x, v.y⟩] } from rfl]
      rw [Option.some_bind, ih]
      simp [List.append_assoc]

theorem pyGet_of_pos (vs : List Vec2) (i : ℤ) (p : Vec2) (h1 : 1 ≤ i)
    (h3 : vs.get? (i - 1).toNat = some p) : pyGet vs (i - 1) = some p := by
  unfold pyGet
  dsimp only
  split_ifs with hneg hpos
  · exfalso
    omega
  · exfalso
    omega
  · exact h3
  · exfalso
    omega

theorem resolvePy_of_goodIdx (vs : List Vec2) (pts : List Vec2)
    (idxs : List ℤ) (h : GoodIdx vs pts idxs) :
    resolvePy vs idxs = some pts := by
  induction h with
  | nil => rfl
  | @cons p i rest irest hpi hrest ih =>
      obtain ⟨h1, _h2, h3⟩ := hpi
      dsimp only [resolvePy]
      rw [pyGet_of_pos vs i p h1 h3, ih]

theorem readFrom_lins (vs : List Vec2) (lls : List (List Vec2))
    (idxss : List (List ℤ))
    (h : List.Forall₂ (GoodIdx vs) lls idxss) :
    ∀ st : OBJReader, st.vertices = vs →
      readFrom st (idxss.map ObjRecord.lin)
        = some ⟨vs, st.lines ++ lls, st.faces⟩ := by
  induction h with
  | nil =>
      intro st hst
      cases st
      subst hst
      simp [readFrom]
  | @cons pts idxs lrest irest hpi hrest ih =>
      intro st hst
      show (readRecord st (ObjRecord.lin idxs)).bind _ = _
      rw [show readRecord st (ObjRecord.lin idxs)
          = (resolvePy st.vertices idxs).map
              (fun ps => { st with lines := st.lines ++ [ps] }) from rfl]
      rw [hst, resolvePy_of_goodIdx vs pts idxs hpi, Option.map_some',
        Option.some_bind, ih _ rfl]
      simp [List.append_assoc]

theorem readFrom_facs (vs : List Vec2) (ffs : List (List Vec2))
    (idxss : List (List ℤ))
    (h : List.Forall₂ (GoodIdx vs) ffs idxss) :
    ∀ st : OBJReader, st.vertices = vs →
      readFrom st (idxss.map ObjRecord.fac)
        = some ⟨vs, st.lines, st.faces ++ ffs⟩ := by
  induction h with
  | nil =>
      intro st hst
      cases st
      subst hst
      simp [readFrom]
  | @cons pts idxs frest irest hpi hrest ih =>
      intro st hst
      show (readRecord st (ObjRecord.fac idxs)).bind _ = _
      rw [show readRecord st (ObjRecord.fac idxs)
          = (resolvePy st.vertices idxs).map
              (fun ps => { st with faces := st.faces ++ [ps] }) from rfl]
      rw [hst, resolvePy_of_goodIdx vs pts idxs hpi, Option.map_some',
        Option.some_bind, ih _ rfl]
      simp [List.append_assoc]

/-- C5: OBJ round trip.  Adding any line lists and face lists (arbitrary,
possibly repeated, exactly-equal-deduplicated vertices) to a fresh writer,
writing the file and reading it back with a fresh reader succeeds and
reproduces the original ordered line and face lists exactly. -/
theorem C5_obj_roundtrip (lls ffs : List (List Vec2)) :
    ∃ st, readAll (buildWriter lls ffs).write = some st ∧
      st.lines = lls ∧ st.faces = ffs := by
  obtain ⟨hlines, hfaces⟩ := buildWriter_spec lls ffs
  refine ⟨⟨(buildWriter lls ffs).vertices, lls, ffs⟩, ?_, rfl, rfl⟩
  rw [readAll, OBJWriter.write, readFrom_append, readFrom_append, readFrom_vtx]
  simp only [OBJReader.empty, List.nil_append, Option.some_bind]
  rw [readFrom_lins (buildWriter lls ffs).vertices lls
    (buildWriter lls ffs).lines hlines
    ⟨(buildWriter lls ffs).vertices, [], []⟩ rfl]
  simp only [List.nil_append, Option.some_bind]
  rw [readFrom_facs (buildWriter lls ffs).vertices ffs
    (buildWriter lls ffs).faces hfaces
    ⟨(buildWriter lls ffs).vertices, lls, []⟩ rfl]
  simp

end SGI
